import Mathlib

/-
Verification of the shopping-list generation core of the MealPlanning
repository (`meal_planner/core/shopping_list.py`), against its
natural-language specification.

The embedding below translates the Python code into executable Lean
definitions.  Numbers (quantities, prices, servings) are modelled as
rationals, per the specification's "arbitrary-precision decimal-compatible
numbers".  Python's `round(x, 2)` is modelled as round-half-to-even on
rationals.  String case operations (`str.lower`, `str.title`, SQLite
`LOWER`) are modelled on the ASCII range.  SQL result sets without an
ORDER BY are modelled in table (list) order; Python dicts are modelled as
insertion-ordered association lists.
-/

namespace MealPlanner

/-- ASCII lower-casing of one character, modelling Python `str.lower` and
SQLite `LOWER` on the character range the claims exercise. -/
def lowerChar (c : Char) : Char :=
  if 65 ≤ c.toNat ∧ c.toNat ≤ 90 then Char.ofNat (c.toNat + 32) else c

/-- ASCII upper-casing of one character, used by Python `str.title`. -/
def upperChar (c : Char) : Char :=
  if 97 ≤ c.toNat ∧ c.toNat ≤ 122 then Char.ofNat (c.toNat - 32) else c

/-- ASCII letter test, modelling "cased character" in Python `str.title`. -/
def isAlphaChar (c : Char) : Bool :=
  decide ((65 ≤ c.toNat ∧ c.toNat ≤ 90) ∨ (97 ≤ c.toNat ∧ c.toNat ≤ 122))

/-- Whitespace test, modelling the characters Python `str.strip` removes
(ASCII subset: space, tab, newline, carriage return, vertical tab, form
feed). -/
def isSpaceChar (c : Char) : Bool :=
  decide (c.toNat = 32 ∨ c.toNat = 9 ∨ c.toNat = 10 ∨ c.toNat = 13
    ∨ c.toNat = 11 ∨ c.toNat = 12)

/-- Strip leading and trailing whitespace from a character list, modelling
Python `str.strip`. -/
def trimChars (l : List Char) : List Char :=
  ((l.dropWhile isSpaceChar).reverse.dropWhile isSpaceChar).reverse

/-- Python `s.lower().strip()` — the single normalization applied to names
and units throughout `generate`. -/
def norm (s : String) : String :=
  ⟨trimChars (s.data.map lowerChar)⟩

/-- SQLite `LOWER(s)`: lower-casing without any trimming.  Used only by the
preferred-store lookup (`WHERE LOWER(p.name) = ?`). -/
def lowerStr (s : String) : String :=
  ⟨s.data.map lowerChar⟩

/-- Helper for Python `str.title`: the Bool records whether the previous
character was a letter. -/
def titleAux : Bool → List Char → List Char
  | _, [] => []
  | prevAlpha, c :: cs =>
    (if isAlphaChar c && !prevAlpha then upperChar c else lowerChar c)
      :: titleAux (isAlphaChar c) cs

/-- Python `str.title`, as used for `display_name = ing_name.title()`. -/
def titlecase (s : String) : String :=
  ⟨titleAux false s.data⟩

/-- Floor of a rational as an integer (floor division of numerator by
denominator). -/
def ratFloor (q : ℚ) : ℤ :=
  q.num.fdiv q.den

/-- Round a rational to the nearest integer, ties to even — Python's
`round` tie-breaking rule. -/
def roundHalfEven (q : ℚ) : ℤ :=
  let f := ratFloor q
  let r := q - (f : ℚ)
  if r < 1/2 then f
  else if 1/2 < r then f + 1
  else if f % 2 = 0 then f else f + 1

/-- Python `round(q, 2)`. -/
def round2 (q : ℚ) : ℚ :=
  (roundHalfEven (q * 100) : ℚ) / 100

/-- A rational representable with exactly two decimal places. -/
def twoDecimal (q : ℚ) : Prop :=
  (q * 100).den = 1

instance (q : ℚ) : Decidable (twoDecimal q) := by
  unfold twoDecimal; infer_instance

/-- Row of the `recipe_ingredients` table (shopping-relevant columns). -/
structure Ingredient where
  name : String
  quantity : Option ℚ
  unit : Option String
  estimatedPrice : Option ℚ
  shoppingName : Option String
  shoppingQty : Option ℚ
  shoppingUnit : Option String
deriving DecidableEq, Repr

/-- A meal-plan entry as returned by `get_meals_in_range` (fields `generate`
reads). -/
structure PlanEntry where
  date : String
  mealSlot : String
  recipeId : Option Nat
  servings : ℚ
deriving DecidableEq, Repr

/-- Row of the `pantry` table, with the preferred store name already
resolved through the `stores` join (`None` when the id is null or
unmatched). -/
structure PantryItem where
  name : String
  quantity : Option ℚ
  estimatedPrice : Option ℚ
  preferredStore : Option String
deriving DecidableEq, Repr

/-- Row of the `staples` table, with the preferred store name resolved
through the `stores` join. -/
structure Staple where
  name : String
  needToBuy : Bool
  preferredStore : Option String
deriving DecidableEq, Repr

/-- Row of the `known_prices` table. -/
structure KnownPrice where
  itemName : String
  unitPrice : ℚ
deriving DecidableEq, Repr

/-- The database snapshot `generate` reads: meal-plan entries,
`recipe_ingredients` rows tagged with their `recipe_id`, and the pantry,
staples and known-price tables, each in table order. -/
structure DB where
  entries : List PlanEntry
  recipeIngredients : List (Nat × Ingredient)
  pantry : List PantryItem
  staples : List Staple
  knownPrices : List KnownPrice
deriving DecidableEq, Repr

/-- One emitted shopping-list line:
`(display_name, buy_qty, unit, estimated_cost)`. -/
structure LineItem where
  name : String
  qty : ℚ
  unit : String
  cost : Option ℚ
deriving DecidableEq, Repr

/-- Lexicographic order on character lists by code point, modelling both
Python string comparison and SQLite's BINARY collation on ASCII data. -/
def charsLE : List Char → List Char → Bool
  | [], _ => true
  | _ :: _, [] => false
  | a :: as, b :: bs =>
    if a.toNat < b.toNat then true
    else if b.toNat < a.toNat then false
    else charsLE as bs

/-- String `≤` by code points. -/
def strLE (a b : String) : Bool :=
  charsLE a.data b.data

/-- String `<` by code points (strict part of the total order `strLE`). -/
def strLT (a b : String) : Bool :=
  !strLE b a

/-- Comparison implementing SQL `ORDER BY date, meal_slot`. -/
def entryLE (a b : PlanEntry) : Bool :=
  strLT a.date b.date || (a.date == b.date && strLE a.mealSlot b.mealSlot)

/-- Stable insertion step for sorting meal-plan entries. -/
def insertEntry (a : PlanEntry) : List PlanEntry → List PlanEntry
  | [] => [a]
  | b :: l => if entryLE a b then a :: b :: l else b :: insertEntry a l

/-- Stable sort of meal-plan entries by `(date, meal_slot)`, modelling the
query's `ORDER BY`. -/
def sortEntries : List PlanEntry → List PlanEntry
  | [] => []
  | a :: l => insertEntry a (sortEntries l)

/-- Model of `get_meals_in_range(start, end)`: entries whose date lies in
the inclusive range (SQLite compares the ISO date strings lexicographically),
ordered by `(date, meal_slot)`. -/
def getMealsInRange (db : DB) (startD endD : String) : List PlanEntry :=
  sortEntries (db.entries.filter fun e =>
    strLE startD e.date && strLE e.date endD)

/-- Rows of `recipe_ingredients` for one entry's recipe, in table order;
entries without a recipe contribute nothing. -/
def entryIngredients (db : DB) (e : PlanEntry) : List Ingredient :=
  match e.recipeId with
  | none => []
  | some rid => (db.recipeIngredients.filter fun p => p.1 == rid).map (·.2)

/-- Python `a or b` on an optional string: empty or missing `a` falls
through to `b`. -/
def orElseStr (a : Option String) (b : String) : String :=
  match a with
  | some s => if s = "" then b else s
  | none => b

/-- Effective ingredient name: `ing["shopping_name"] or ing["name"]`. -/
def effName (i : Ingredient) : String :=
  orElseStr i.shoppingName i.name

/-- Effective unit: `ing["shopping_unit"] or ing["unit"] or ""`. -/
def effUnit (i : Ingredient) : String :=
  orElseStr i.shoppingUnit (orElseStr i.unit "")

/-- Effective quantity: `shopping_qty if shopping_qty is not None else
(quantity or 0)` (a quantity of `None` counts as 0). -/
def effQty (i : Ingredient) : ℚ :=
  match i.shoppingQty with
  | some q => q
  | none => i.quantity.getD 0

/-- The normalized aggregation key `(s_name, s_unit)` of an ingredient. -/
def keyOf (i : Ingredient) : String × String :=
  (norm (effName i), norm (effUnit i))

/-- State of the aggregation loop: `required` (a `defaultdict(float)` in
insertion order) and `ingredient_prices` (first-seen per key). -/
structure AggState where
  required : List ((String × String) × ℚ)
  prices : List ((String × String) × ℚ)
deriving DecidableEq, Repr

/-- `required[key] += qty` on an insertion-ordered association list. -/
def bump (al : List ((String × String) × ℚ)) (k : String × String) (q : ℚ) :
    List ((String × String) × ℚ) :=
  match al with
  | [] => [(k, q)]
  | (k', v) :: rest => if k' = k then (k', v + q) :: rest else (k', v) :: bump rest k q

/-- First value stored under a key in an association list (Python dict
lookup for dicts built without overwriting). -/
def lookupFirst (al : List ((String × String) × ℚ)) (k : String × String) : Option ℚ :=
  (al.find? fun p => p.1 == k).map (·.2)

/-- `if key not in ingredient_prices: ingredient_prices[key] = v`. -/
def setIfAbsent (al : List ((String × String) × ℚ)) (k : String × String) (v : ℚ) :
    List ((String × String) × ℚ) :=
  if (al.find? fun p => p.1 == k).isSome then al else al ++ [(k, v)]

/-- Body of the inner aggregation loop for one ingredient of one entry. -/
def aggIng (e : PlanEntry) (st : AggState) (i : Ingredient) : AggState :=
  let k := keyOf i
  let q := effQty i * e.servings
  { required := bump st.required k q
    prices :=
      match i.estimatedPrice with
      | some p => setIfAbsent st.prices k p
      | none => st.prices }

/-- Aggregation over one meal-plan entry's ingredients. -/
def aggEntry (db : DB) (st : AggState) (e : PlanEntry) : AggState :=
  (entryIngredients db e).foldl (aggIng e) st

/-- The full demand-aggregation loop of `generate` over the in-range
entries. -/
def aggregate (db : DB) (entries : List PlanEntry) : AggState :=
  entries.foldl (aggEntry db) ⟨[], []⟩

/-- `pantry_qty.get(name, 0)`: the comprehension keys rows by normalized
name with later duplicates overwriting, and maps a null quantity to 0. -/
def pantryOnHand (db : DB) (n : String) : ℚ :=
  match db.pantry.reverse.find? (fun p => norm p.name == n) with
  | some p => p.quantity.getD 0
  | none => 0

/-- `pantry_prices.get(name)`: last pantry row with this normalized name
and a non-null estimated price. -/
def pantryPrice (db : DB) (n : String) : Option ℚ :=
  (db.pantry.reverse.find? fun p => norm p.name == n && p.estimatedPrice.isSome).bind
    (·.estimatedPrice)

/-- `known_prices.get(name)`: the dict comprehension keys rows by
normalized item name, later duplicates overwriting. -/
def knownLookup (db : DB) (n : String) : Option ℚ :=
  (db.knownPrices.reverse.find? fun r => norm r.itemName == n).map (·.unitPrice)

/-- `staple_names`: normalized names of staples with `need_to_buy = 0`. -/
def stapleNames (db : DB) : List String :=
  (db.staples.filter fun s => !s.needToBuy).map fun s => norm s.name

/-- The preferred-store lookup
`SELECT s.name FROM pantry p LEFT JOIN stores s ... WHERE LOWER(p.name) = ? LIMIT 1`:
the pantry side is lower-cased by SQL but NOT trimmed; a missing row, null
store or empty store name falls back to the sentinel. -/
def storeFor (db : DB) (n : String) : String :=
  match db.pantry.find? (fun p => lowerStr p.name == n) with
  | none => "No Store Assigned"
  | some p =>
    match p.preferredStore with
    | none => "No Store Assigned"
    | some st => if st = "" then "No Store Assigned" else st

/-- Modelled from the spec: the same preferred-store lookup as `storeFor`,
but with the specification's uniform normalization (trim + lower-case)
applied to the pantry-side name, per §4.1's "applied uniformly ...
so that equality comparisons across these four independent data sources
are reliable".  Used only to compare against the code's `storeFor`. -/
def storeForSpec (db : DB) (n : String) : String :=
  match db.pantry.find? (fun p => norm p.name == n) with
  | none => "No Store Assigned"
  | some p =>
    match p.preferredStore with
    | none => "No Store Assigned"
    | some st => if st = "" then "No Store Assigned" else st

/-- Price cascade: known price, else recipe-ingredient price (full key),
else pantry price, else none. -/
def resolveUnitPrice (db : DB) (prices : List ((String × String) × ℚ))
    (k : String × String) : Option ℚ :=
  match knownLookup db k.1 with
  | some p => some p
  | none =>
    match lookupFirst prices k with
    | some p => some p
    | none => pantryPrice db k.1

/-- Construction of one emitted recipe-driven line and its store bucket,
given the full-precision buy quantity. -/
def mkLine (db : DB) (prices : List ((String × String) × ℚ))
    (k : String × String) (buy : ℚ) : String × LineItem :=
  (storeFor db k.1,
   { name := titlecase k.1
     qty := round2 buy
     unit := k.2
     cost := (resolveUnitPrice db prices k).map fun p => round2 (p * buy) })

/-- Body of the per-key loop of `generate`: staple skip, pantry offset,
drop of non-positive buy quantities, line construction. -/
def processKey (db : DB) (prices : List ((String × String) × ℚ))
    (usePantry : Bool) (k : String × String) (needed : ℚ) :
    Option (String × LineItem) :=
  if k.1 ∈ stapleNames db then none
  else if usePantry then
    let buy := needed - pantryOnHand db k.1
    if buy ≤ 0 then none else some (mkLine db prices k buy)
  else some (mkLine db prices k needed)

/-- Store buckets: `defaultdict(list)` keyed by store name in first-touch
order. -/
abbrev Buckets := List (String × List LineItem)

/-- `store_items[store].append(line)` on the insertion-ordered buckets. -/
def appendLine (bs : Buckets) (st : String) (l : LineItem) : Buckets :=
  match bs with
  | [] => [(st, [l])]
  | (s, items) :: rest =>
    if s = st then (s, items ++ [l]) :: rest else (s, items) :: appendLine rest st l

/-- One iteration of the per-key loop, threading the bucket state. -/
def buildStep (db : DB) (prices : List ((String × String) × ℚ)) (usePantry : Bool)
    (bs : Buckets) (kq : (String × String) × ℚ) : Buckets :=
  match processKey db prices usePantry kq.1 kq.2 with
  | none => bs
  | some (st, l) => appendLine bs st l

/-- The per-key loop over `required.items()`. -/
def recipeBuckets (db : DB) (prices : List ((String × String) × ℚ))
    (usePantry : Bool) (required : List ((String × String) × ℚ)) : Buckets :=
  required.foldl (buildStep db prices usePantry) []

/-- Stable insertion step for `list.sort(key=lambda x: x[0])`. -/
def insertLine (a : LineItem) : List LineItem → List LineItem
  | [] => [a]
  | b :: l => if strLE a.name b.name then a :: b :: l else b :: insertLine a l

/-- Stable sort of a store's lines by display name, modelling Python's
stable `list.sort` with the name as key. -/
def sortLines : List LineItem → List LineItem
  | [] => []
  | a :: l => insertLine a (sortLines l)

/-- Sort every store's lines by display name. -/
def sortBuckets (bs : Buckets) : Buckets :=
  bs.map fun p => (p.1, sortLines p.2)

/-- Bucket receiving an injected staple: its preferred store, or the
sentinel `"Staples"` when the store is null or empty
(`row["store_name"] or "Staples"`). -/
def stapleBucket (s : Staple) : String :=
  match s.preferredStore with
  | none => "Staples"
  | some st => if st = "" then "Staples" else st

/-- The line appended for a needed staple:
`(row["name"], 0, "", known_prices.get(staple_lower))`. -/
def stapleLine (db : DB) (s : Staple) : LineItem :=
  { name := s.name, qty := 0, unit := "", cost := knownLookup db (norm s.name) }

/-- `already_listed`: some line in some store whose normalized display name
equals the given normalized name. -/
def anyListed (bs : Buckets) (n : String) : Bool :=
  bs.any fun p => p.2.any fun l => norm l.name == n

/-- Injection of one needed staple (skipped when already listed). -/
def injectStaple (db : DB) (bs : Buckets) (s : Staple) : Buckets :=
  if anyListed bs (norm s.name) then bs
  else appendLine bs (stapleBucket s) (stapleLine db s)

/-- Injection pass over the `need_to_buy = 1` staples, in table order. -/
def injectStaples (db : DB) (bs : Buckets) (ss : List Staple) : Buckets :=
  ss.foldl (injectStaple db) bs

/-- The `generate(start_date, end_date, use_pantry)` entry point. -/
def generate (db : DB) (startD endD : String) (usePantry : Bool) : Buckets :=
  let entries := getMealsInRange db startD endD
  if entries.isEmpty then []
  else
    let ag := aggregate db entries
    if ag.required.isEmpty then []
    else
      let bs := recipeBuckets db ag.prices usePantry ag.required
      let bs := sortBuckets bs
      let bs := injectStaples db bs (db.staples.filter (·.needToBuy))
      sortBuckets bs

/-- Contribution of one (entry, ingredient) pair to the aggregation:
its normalized key, its quantity times the entry's servings, and its
estimated price. -/
def contribOf (e : PlanEntry) (i : Ingredient) : (String × String) × ℚ × Option ℚ :=
  (keyOf i, (effQty i * e.servings, i.estimatedPrice))

/-- The flattened contribution stream of the aggregation loop, in
entry-then-ingredient iteration order. -/
def contribs (db : DB) (entries : List PlanEntry) :
    List ((String × String) × ℚ × Option ℚ) :=
  entries.flatMap fun e => (entryIngredients db e).map (contribOf e)

/-- One aggregation step on a single contribution (the loop body of
`generate`'s aggregation, decoupled from the entry). -/
def aggStep (st : AggState) (c : (String × String) × ℚ × Option ℚ) : AggState :=
  { required := bump st.required c.1 c.2.1
    prices :=
      match c.2.2 with
      | some p => setIfAbsent st.prices c.1 p
      | none => st.prices }

/-- Modelled from the spec: "the first non-null per-unit estimated price
encountered" for a key, read directly off the contribution stream.  Used
to compare against the recorded `ingredient_prices` side table. -/
def firstPriceSpec (cs : List ((String × String) × ℚ × Option ℚ))
    (k : String × String) : Option ℚ :=
  cs.findSome? fun c => if c.1 = k then c.2.2 else none

/-- All `(store, line)` pairs of the buckets, in order. -/
def linesOf (bs : Buckets) : List (String × LineItem) :=
  bs.flatMap fun p => p.2.map fun l => (p.1, l)

/-- A line item occurring in a given store's bucket. -/
def lineInBucket (bs : Buckets) (st : String) (l : LineItem) : Prop :=
  (st, l) ∈ linesOf bs

/-- Number of lines across all buckets whose normalized display name is
`n`. -/
def countNorm (bs : Buckets) (n : String) : Nat :=
  (linesOf bs).countP fun x => norm x.2.name == n

/-- A JSON scalar as stored inside a cached ingredient-source tuple; the
tuples themselves are JSON arrays, modelled as lists of scalars so that
their arity is a runtime value, as in the Python code. -/
inductive JScalar where
  | jnum (q : ℚ)
  | jstr (s : String)
  | jbool (b : Bool)
  | jnull
deriving DecidableEq, Repr

/-- The payload persisted by `save_cached_list` and re-read by
`load_cached_list`: shopping data, the ingredient-source trace, the date
range and the pantry flag.  `json.dumps`/`json.loads` round-trip this
structured value losslessly (tuples come back as lists and are re-tupled
on load), so serialization is modelled as the identity on the tree. -/
structure CacheBundle where
  shoppingData : List (String × List LineItem)
  ingredientSources : List (String × List (List JScalar))
  startDate : String
  endDate : String
  usePantry : Bool
deriving DecidableEq, Repr

/-- `save_cached_list`: stores the JSON payload into the single settings
slot (`json.dumps` of a dict is never the empty string, so the stored
value is always a present, truthy raw string). -/
def save_cached_list (b : CacheBundle) : Option CacheBundle :=
  some b

/-- The `ingredient_sources` validation of `load_cached_list`: a key is
kept (with all its tuples) when its list is non-empty and its first tuple
has 6 elements; otherwise the key is discarded wholesale. -/
def validSources (src : List (String × List (List JScalar))) :
    List (String × List (List JScalar)) :=
  src.filterMap fun p =>
    match p.2 with
    | [] => none
    | t :: _ => if t.length = 6 then some p else none

/-- Modelled from the spec: the keys the arity validation keeps, read as
a predicate — the stored list is non-empty and its first tuple has 6
elements. -/
def keepSource (p : String × List (List JScalar)) : Bool :=
  decide (p.2.head?.map List.length = some 6)

/-- `load_cached_list`: an absent or empty raw value yields `none`;
otherwise the parsed payload is returned with its `ingredient_sources`
filtered by the arity check. -/
def load_cached_list (slot : Option CacheBundle) : Option CacheBundle :=
  match slot with
  | none => none
  | some d => some { d with ingredientSources := validSources d.ingredientSources }

/-! Concrete snapshots used to instantiate the theorems below. -/

/-- A recipe ingredient "cb " (note trailing space), one "lb". -/
def exIngredient : Ingredient :=
  { name := "cb ", quantity := some 1, unit := some "lb",
    estimatedPrice := none, shoppingName := none, shoppingQty := none,
    shoppingUnit := none }

/-- One planned dinner referencing recipe 1, two servings. -/
def exEntry : PlanEntry :=
  { date := "d1", mealSlot := "m", recipeId := some 1, servings := 2 }

/-- Minimal snapshot: one entry, one ingredient, empty other tables. -/
def exDb : DB :=
  { entries := [exEntry], recipeIngredients := [(1, exIngredient)],
    pantry := [], staples := [], knownPrices := [] }

/-- Snapshot with the same item priced in all three price sources. -/
def dbCascade : DB :=
  { exDb with
    pantry := [{ name := "a", quantity := some 1, estimatedPrice := some 3,
                 preferredStore := none }]
    knownPrices := [{ itemName := "a", unitPrice := 2 }] }

/-- Snapshot where pantry stock (3) fully covers the demand (2). -/
def dbPantryCovers : DB :=
  { exDb with
    pantry := [{ name := "cb", quantity := some 3, estimatedPrice := none,
                 preferredStore := none }] }

/-- A one-ingredient recipe for "milk" together with a pantry row whose
name carries a leading space and a preferred store. -/
def ingMilk : Ingredient :=
  { name := "milk", quantity := some 1, unit := none,
    estimatedPrice := none, shoppingName := none, shoppingQty := none,
    shoppingUnit := none }

/-- Snapshot with an untrimmed pantry name " milk" and preferred store
"sA". -/
def dbUntrimmedPantry : DB :=
  { entries := [{ date := "d1", mealSlot := "m", recipeId := some 1, servings := 1 }],
    recipeIngredients := [(1, ingMilk)],
    pantry := [{ name := " milk", quantity := some 0, estimatedPrice := none,
                 preferredStore := some "sA" }],
    staples := [], knownPrices := [] }

/-- Snapshot with a needed staple "s" whose known price 1/8 has three
decimal places (0.125). -/
def dbStapleCents : DB :=
  { exDb with
    staples := [{ name := "s", needToBuy := true, preferredStore := none }]
    knownPrices := [{ itemName := "s", unitPrice := 1/8 }] }

/-- A recipe ingredient with a null quantity. -/
def ingNullQty : Ingredient :=
  { name := "z", quantity := none, unit := none,
    estimatedPrice := none, shoppingName := none, shoppingQty := none,
    shoppingUnit := none }

/-- Snapshot whose only ingredient has a null quantity, so its aggregated
demand is 0. -/
def dbZeroQty : DB :=
  { exDb with recipeIngredients := [(1, ingNullQty)] }

/-- Snapshot with one recipe-less (notes-only) entry in range and a
needed staple. -/
def dbNoRecipe : DB :=
  { entries := [{ date := "d1", mealSlot := "m", recipeId := none, servings := 1 }],
    recipeIngredients := [], pantry := [],
    staples := [{ name := "s", needToBuy := true, preferredStore := none }],
    knownPrices := [] }

/-- Snapshot with one recipe line plus a needed staple "pt" with a
preferred store and a known price. -/
def dbStapleInject : DB :=
  { exDb with
    staples := [{ name := "pt", needToBuy := true, preferredStore := some "sB" }]
    knownPrices := [{ itemName := "pt", unitPrice := 2 }] }

/-- Snapshot where the demanded ingredient is an always-on-hand staple
(`need_to_buy = 0`). -/
def dbStapleOnHand : DB :=
  { exDb with
    staples := [{ name := "cb", needToBuy := false, preferredStore := none }] }

/-- A cached bundle whose trace has a key with an empty source list. -/
def cacheCex : CacheBundle :=
  { shoppingData := [("sA", [{ name := "Cb", qty := 1, unit := "lb", cost := none }])],
    ingredientSources := [("x", [])],
    startDate := "a", endDate := "b", usePantry := true }

/-! Theorems. -/

/-- C1: for every generation input and every surviving line item, a known
price for the normalized name wins the cascade outright (looked up by name
only), the recipe-ingredient price for the full `(name, unit)` key is used
only when no known price exists, the pantry price only when neither
exists, and every emitted line's cost is the resolved price times the
full-precision buy quantity, rounded at emission. -/
theorem claim1_price_cascade (db : DB) (prices : List ((String × String) × ℚ))
    (k : String × String) :
    (∀ p, knownLookup db k.1 = some p → resolveUnitPrice db prices k = some p)
  ∧ (knownLookup db k.1 = none →
      ∀ p, lookupFirst prices k = some p → resolveUnitPrice db prices k = some p)
  ∧ (knownLookup db k.1 = none → lookupFirst prices k = none →
      resolveUnitPrice db prices k = pantryPrice db k.1)
  ∧ (∀ (uP : Bool) (needed : ℚ) (st : String) (l : LineItem),
      processKey db prices uP k needed = some (st, l) →
      l.cost = (resolveUnitPrice db prices k).map fun p =>
        round2 (p * (if uP then needed - pantryOnHand db k.1 else needed))) := by
  refine ⟨?_, ?_, ?_, ?_⟩
  · intro p h
    unfold resolveUnitPrice
    rw [h]
  · intro h p h2
    unfold resolveUnitPrice
    rw [h, h2]
  · intro h h2
    unfold resolveUnitPrice
    rw [h, h2]
  · intro uP needed st l h
    unfold processKey at h
    split at h
    · exact absurd h (by simp)
    · cases uP with
      | false =>
        simp only [Bool.false_eq_true, if_false] at h
        rw [show mkLine db prices k needed = (storeFor db k.1,
          { name := titlecase k.1, qty := round2 needed, unit := k.2,
            cost := (resolveUnitPrice db prices k).map fun p => round2 (p * needed) }) from rfl] at h
        cases h
        rfl
      | true =>
        simp only [if_true] at h
        split at h
        · exact absurd h (by simp)
        · rw [show mkLine db prices k (needed - pantryOnHand db k.1) = (storeFor db k.1,
            { name := titlecase k.1, qty := round2 (needed - pantryOnHand db k.1), unit := k.2,
              cost := (resolveUnitPrice db prices k).map fun p =>
                round2 (p * (needed - pantryOnHand db k.1)) }) from rfl] at h
          cases h
          rfl

/-- Witness for C1 at a snapshot where the same item has a known price 2,
a recipe price 4 and a pantry price 3: the resolved price is the known
price. -/
theorem claim1_price_cascade_witness :
    resolveUnitPrice dbCascade [(("a", "u"), 4)] ("a", "u") = some 2 :=
  (claim1_price_cascade dbCascade [(("a", "u"), 4)] ("a", "u")).1 2
    (by with_unfolding_all decide)

/-- C3: with pantry-offsetting enabled and the key not a staple, the buy
quantity is the needed total minus the pantry on-hand quantity for the
name (0 when absent); the key is dropped — contributing nothing to the
buckets — exactly when that difference is ≤ 0, and otherwise emits a line
with the rounded difference as quantity. -/
theorem claim3_pantry_offset (db : DB) (prices : List ((String × String) × ℚ))
    (k : String × String) (needed : ℚ) (hst : k.1 ∉ stapleNames db) :
    (needed - pantryOnHand db k.1 ≤ 0 →
      processKey db prices true k needed = none
        ∧ ∀ bs, buildStep db prices true bs (k, needed) = bs)
  ∧ (¬ needed - pantryOnHand db k.1 ≤ 0 →
      processKey db prices true k needed =
        some (storeFor db k.1,
          { name := titlecase k.1, qty := round2 (needed - pantryOnHand db k.1),
            unit := k.2,
            cost := (resolveUnitPrice db prices k).map fun p =>
              round2 (p * (needed - pantryOnHand db k.1)) })) := by
  constructor
  · intro hle
    have hp : processKey db prices true k needed = none := by
      unfold processKey
      rw [if_neg hst, if_pos rfl, if_pos hle]
    refine ⟨hp, fun bs => ?_⟩
    unfold buildStep
    rw [hp]
  · intro hgt
    unfold processKey
    rw [if_neg hst, if_pos rfl, if_neg hgt]
    rfl

/-- Witness for C3 at the Scenario-B snapshot (demand 2, pantry stock 3):
the key is dropped and the buckets are untouched. -/
theorem claim3_pantry_offset_witness :
    processKey dbPantryCovers [] true ("cb", "lb") 2 = none
      ∧ buildStep dbPantryCovers [] true [] (("cb", "lb"), 2) = [] := by
  have h := (claim3_pantry_offset dbPantryCovers [] ("cb", "lb") 2
    (by with_unfolding_all decide)).1 (by with_unfolding_all decide)
  exact ⟨h.1, h.2 []⟩

/-- The arity filter of `load_cached_list`, expressed as a `filter` by the
head tuple's length. -/
theorem validSources_eq_filter (src : List (String × List (List JScalar))) :
    validSources src = src.filter keepSource := by
  induction src with
  | nil => rfl
  | cons a as ih =>
    unfold validSources at ih ⊢
    cases h : a.2 with
    | nil =>
      simp [List.filterMap_cons, List.filter_cons, h, ih, keepSource]
    | cons t ts =>
      by_cases h6 : t.length = 6
      · simp [List.filterMap_cons, List.filter_cons, h, h6, ih, keepSource]
      · simp [List.filterMap_cons, List.filter_cons, h, h6, ih, keepSource]

/-- C7 (amended): saving and immediately loading reproduces the bundle —
same shopping data, dates and pantry flag — except that ingredient-source
keys whose list is empty or whose first tuple does not have 6 elements
are dropped wholesale. -/
theorem claim7_cache_roundtrip (b : CacheBundle) :
    load_cached_list (save_cached_list b) =
      some { b with ingredientSources := b.ingredientSources.filter keepSource } := by
  unfold load_cached_list save_cached_list
  dsimp only
  rw [validSources_eq_filter]

/-- Counterexample to C7 as stated: a trace key with an empty source list
contains no tuple of wrong arity, yet the round trip drops it. -/
theorem claim7_cache_roundtrip_counterexample :
    load_cached_list (save_cached_list cacheCex)
        = some { cacheCex with ingredientSources := [] }
      ∧ (∀ p ∈ cacheCex.ingredientSources, ∀ t ∈ p.2, t.length = 6)
      ∧ cacheCex.ingredientSources ≠ [] := by
  refine ⟨rfl, by decide, by decide⟩

/-- An entry without a recipe contributes nothing to the aggregation. -/
theorem aggEntry_no_recipe (db : DB) (st : AggState) (e : PlanEntry)
    (h : e.recipeId = none) : aggEntry db st e = st := by
  unfold aggEntry entryIngredients
  rw [h]
  rfl

/-- Folding the aggregation over recipe-less entries leaves the state
unchanged. -/
theorem foldl_aggEntry_no_recipes (db : DB) (es : List PlanEntry)
    (h : ∀ e ∈ es, e.recipeId = none) :
    ∀ st : AggState, es.foldl (aggEntry db) st = st := by
  induction es with
  | nil => intro st; rfl
  | cons a as ih =>
    intro st
    rw [List.foldl_cons, aggEntry_no_recipe db st a (h a (.head as)),
      ih (fun e he => h e (.tail a he))]

/-- C10: when no in-range entry references a recipe (in particular when
the range is empty), or when the aggregated demand mapping is empty,
`generate` returns the empty mapping before the staple-injection pass, so
needed staples never appear. -/
theorem claim10_empty_returns (db : DB) (sd ed : String) (uP : Bool) :
    ((∀ e ∈ getMealsInRange db sd ed, e.recipeId = none) →
      generate db sd ed uP = [])
  ∧ ((aggregate db (getMealsInRange db sd ed)).required = [] →
      generate db sd ed uP = []) := by
  constructor
  · intro h
    unfold generate
    dsimp only
    split
    · rfl
    · have hagg : aggregate db (getMealsInRange db sd ed) = ⟨[], []⟩ :=
        foldl_aggEntry_no_recipes db (getMealsInRange db sd ed) h ⟨[], []⟩
      rw [hagg]
      rfl
  · intro h
    unfold generate
    dsimp only
    split
    · rfl
    · rw [show (aggregate db (getMealsInRange db sd ed)).required.isEmpty
          = true by rw [h]; rfl]
      rfl

/-- Witness for C10: a range containing only a notes-only entry, with a
needed staple configured, yields the empty result. -/
theorem claim10_empty_returns_witness :
    generate dbNoRecipe "d1" "d1" true = [] :=
  (claim10_empty_returns dbNoRecipe "d1" "d1" true).1
    (by with_unfolding_all decide)

/-- One aggregation-loop step equals the decoupled step on the
contribution. -/
theorem aggIng_eq_aggStep (e : PlanEntry) (st : AggState) (i : Ingredient) :
    aggIng e st i = aggStep st (contribOf e i) := rfl

/-- The nested aggregation loop equals a fold over the flattened
contribution stream. -/
theorem foldl_aggEntry_eq_contribs (db : DB) (es : List PlanEntry) :
    ∀ st : AggState, es.foldl (aggEntry db) st = (contribs db es).foldl aggStep st := by
  induction es with
  | nil => intro st; rfl
  | cons e es ih =>
    intro st
    rw [List.foldl_cons]
    rw [ih (aggEntry db st e)]
    unfold contribs
    rw [List.flatMap_cons, List.foldl_append]
    unfold aggEntry
    have hfun : (aggIng e) = fun st i => aggStep st (contribOf e i) := by
      funext st' i
      rfl
    rw [List.foldl_map, hfun]

/-- The full aggregation equals a fold of `aggStep` over the contribution
stream. -/
theorem aggregate_eq_foldl_contribs (db : DB) (es : List PlanEntry) :
    aggregate db es = (contribs db es).foldl aggStep ⟨[], []⟩ :=
  foldl_aggEntry_eq_contribs db es ⟨[], []⟩

/-- Lookup after a guarded insert: an existing binding wins, otherwise the
inserted binding is visible exactly at its key. -/
theorem lookupFirst_setIfAbsent (al : List ((String × String) × ℚ))
    (k0 k : String × String) (v : ℚ) :
    lookupFirst (setIfAbsent al k0 v) k =
      match lookupFirst al k with
      | some w => some w
      | none => if k0 = k then some v else none := by
  unfold setIfAbsent lookupFirst
  by_cases hp : (al.find? fun p => p.1 == k0).isSome
  · rw [if_pos hp]
    cases hf : al.find? fun p => p.1 == k with
    | some w => rfl
    | none =>
      by_cases hk : k0 = k
      · subst hk
        rw [hf] at hp
        simp at hp
      · simp [hk]
  · rw [if_neg hp]
    rw [List.find?_append]
    cases hf : al.find? fun p => p.1 == k with
    | some w => rfl
    | none =>
      by_cases hk : k0 = k
      · subst hk
        simp [List.find?]
      · simp [List.find?, beq_eq_false_iff_ne.mpr hk, hk]

/-- Lookup in the price table after folding the aggregation: an existing
binding wins, otherwise the first non-null price in the remaining stream
is recorded. -/
theorem prices_foldl_spec (cs : List ((String × String) × ℚ × Option ℚ)) :
    ∀ (st : AggState) (k : String × String),
      lookupFirst ((cs.foldl aggStep st).prices) k =
        match lookupFirst st.prices k with
        | some w => some w
        | none => firstPriceSpec cs k := by
  induction cs with
  | nil =>
    intro st k
    cases h : lookupFirst st.prices k <;> simp [firstPriceSpec, h]
  | cons c cs ih =>
    intro st k
    rw [List.foldl_cons, ih (aggStep st c) k]
    have hstep : lookupFirst (aggStep st c).prices k =
        match lookupFirst st.prices k with
        | some w => some w
        | none => if c.1 = k then c.2.2 else none := by
      unfold aggStep
      dsimp only
      cases hc : c.2.2 with
      | none =>
        cases h : lookupFirst st.prices k <;> simp [h]
      | some p =>
        rw [lookupFirst_setIfAbsent]
    rw [hstep]
    have hspec : firstPriceSpec (c :: cs) k =
        match (if c.1 = k then c.2.2 else none) with
        | some w => some w
        | none => firstPriceSpec cs k := by
      unfold firstPriceSpec
      rw [List.findSome?_cons]
      cases hif : (if c.1 = k then c.2.2 else none) <;> rfl
    rw [hspec]
    cases h : lookupFirst st.prices k with
    | some w => rfl
    | none =>
      cases hif : (if c.1 = k then c.2.2 else none) with
      | some w => rfl
      | none => rfl

/-- C8: for every key, the recorded recipe-tier price after aggregation is
the first non-null estimated price encountered for that key in
entry-then-ingredient iteration order; later duplicates never overwrite
it. -/
theorem claim8_first_price_wins (db : DB) (entries : List PlanEntry)
    (k : String × String) :
    lookupFirst (aggregate db entries).prices k =
      firstPriceSpec (contribs db entries) k := by
  rw [aggregate_eq_foldl_contribs]
  rw [prices_foldl_spec (contribs db entries) ⟨[], []⟩ k]
  rfl

/-! Character-level facts about the normalization functions. -/

/-- Characters with equal code points are equal. -/
theorem char_toNat_inj {a b : Char} (h : a.toNat = b.toNat) : a = b :=
  Char.ext (UInt32.ext h)

/-- Code point of `Char.ofNat` below the surrogate range. -/
theorem toNat_ofNat_lt {n : Nat} (h : n < 55296) : (Char.ofNat n).toNat = n := by
  rw [Char.ofNat, dif_pos (Or.inl h : Nat.isValidChar n)]
  rfl

/-- Code point of `lowerChar`. -/
theorem lowerChar_toNat (c : Char) :
    (lowerChar c).toNat =
      if 65 ≤ c.toNat ∧ c.toNat ≤ 90 then c.toNat + 32 else c.toNat := by
  unfold lowerChar
  by_cases h : 65 ≤ c.toNat ∧ c.toNat ≤ 90
  · rw [if_pos h, if_pos h]
    exact toNat_ofNat_lt (by omega)
  · rw [if_neg h, if_neg h]

/-- Code point of `upperChar`. -/
theorem upperChar_toNat (c : Char) :
    (upperChar c).toNat =
      if 97 ≤ c.toNat ∧ c.toNat ≤ 122 then c.toNat - 32 else c.toNat := by
  unfold upperChar
  by_cases h : 97 ≤ c.toNat ∧ c.toNat ≤ 122
  · rw [if_pos h, if_pos h]
    exact toNat_ofNat_lt (by omega)
  · rw [if_neg h, if_neg h]

/-- Lower-casing is idempotent. -/
theorem lowerChar_lowerChar (c : Char) : lowerChar (lowerChar c) = lowerChar c := by
  apply char_toNat_inj
  rw [lowerChar_toNat (lowerChar c), lowerChar_toNat c]
  split_ifs with h1 h2 <;> omega

/-- Lower-casing absorbs upper-casing. -/
theorem lowerChar_upperChar (c : Char) : lowerChar (upperChar c) = lowerChar c := by
  apply char_toNat_inj
  rw [lowerChar_toNat (upperChar c), upperChar_toNat c, lowerChar_toNat c]
  split_ifs with h1 h2 h3 h4 h5 <;> omega

/-- Lower-casing preserves whitespace-ness. -/
theorem isSpaceChar_lowerChar (c : Char) : isSpaceChar (lowerChar c) = isSpaceChar c := by
  unfold isSpaceChar
  rw [lowerChar_toNat]
  by_cases h : 65 ≤ c.toNat ∧ c.toNat ≤ 90
  · rw [if_pos h]
    exact decide_eq_decide.mpr (by omega)
  · rw [if_neg h]

/-- Lower-casing the characters produced by the title-casing pass yields
the plain lower-cased characters. -/
theorem map_lowerChar_titleAux (l : List Char) :
    ∀ b, (titleAux b l).map lowerChar = l.map lowerChar := by
  induction l with
  | nil => intro b; rfl
  | cons c cs ih =>
    intro b
    unfold titleAux
    rw [List.map_cons, List.map_cons, ih]
    congr 1
    split
    · exact lowerChar_upperChar c
    · exact lowerChar_lowerChar c

/-- Mapping `lowerChar` twice equals mapping it once. -/
theorem map_lowerChar_map_lowerChar (l : List Char) :
    (l.map lowerChar).map lowerChar = l.map lowerChar := by
  rw [List.map_map]
  have : lowerChar ∘ lowerChar = lowerChar := funext lowerChar_lowerChar
  rw [this]

/-- `dropWhile isSpaceChar` commutes with lower-casing. -/
theorem dropWhile_map_lowerChar (l : List Char) :
    (l.map lowerChar).dropWhile isSpaceChar =
      (l.dropWhile isSpaceChar).map lowerChar := by
  rw [List.dropWhile_map]
  have : isSpaceChar ∘ lowerChar = isSpaceChar := funext isSpaceChar_lowerChar
  rw [this]

/-- Trimming commutes with lower-casing. -/
theorem trimChars_map_lowerChar (l : List Char) :
    trimChars (l.map lowerChar) = (trimChars l).map lowerChar := by
  unfold trimChars
  rw [dropWhile_map_lowerChar, ← List.map_reverse, dropWhile_map_lowerChar,
    ← List.map_reverse]

/-- `dropWhile` is idempotent. -/
theorem dropWhile_dropWhile (p : α → Bool) (l : List α) :
    (l.dropWhile p).dropWhile p = l.dropWhile p := by
  cases h : l.dropWhile p with
  | nil => rfl
  | cons x xs =>
    have hx := List.head?_dropWhile_not p l
    rw [h] at hx
    simp only [List.head?_cons] at hx
    exact List.dropWhile_cons_of_neg (by simp [hx])

/-- `dropWhile` never lengthens a list. -/
theorem length_dropWhile_le (p : α → Bool) (l : List α) :
    (l.dropWhile p).length ≤ l.length := by
  induction l with
  | nil => simp
  | cons a l ih =>
    rw [List.dropWhile_cons]
    split
    · exact Nat.le_trans ih (Nat.le_succ _)
    · simp

/-- A prefix of a front-trimmed list is itself front-trimmed. -/
theorem dropWhile_eq_self_of_prefix (p : α → Bool) {l t : List α}
    (hl : l.dropWhile p = l) (ht : t <+: l) : t.dropWhile p = t := by
  cases t with
  | nil => rfl
  | cons c t' =>
    obtain ⟨r, hr⟩ := ht
    by_cases hc : p c
    · exfalso
      rw [← hr, List.cons_append, List.dropWhile_cons_of_pos hc] at hl
      have hlen := congrArg List.length hl
      rw [List.length_cons] at hlen
      have hle := length_dropWhile_le p (t' ++ r)
      omega
    · exact List.dropWhile_cons_of_neg hc

/-- The trimmed list is a prefix of the front-trimmed list. -/
theorem trimChars_prefix_of_dropWhile (l : List Char) :
    trimChars l <+: l.dropWhile isSpaceChar := by
  unfold trimChars
  have h1 : (l.dropWhile isSpaceChar).reverse.dropWhile isSpaceChar
      <:+ (l.dropWhile isSpaceChar).reverse := List.dropWhile_suffix _
  have h2 := List.reverse_prefix.mpr h1
  rwa [List.reverse_reverse] at h2

/-- A trimmed list has no leading whitespace. -/
theorem dropWhile_trimChars (l : List Char) :
    (trimChars l).dropWhile isSpaceChar = trimChars l :=
  dropWhile_eq_self_of_prefix _ (dropWhile_dropWhile _ l) (trimChars_prefix_of_dropWhile l)

/-- Trimming is idempotent. -/
theorem trimChars_trimChars (l : List Char) :
    trimChars (trimChars l) = trimChars l := by
  conv_lhs => rw [trimChars]
  rw [dropWhile_trimChars]
  have hrev : (trimChars l).reverse =
      (l.dropWhile isSpaceChar).reverse.dropWhile isSpaceChar := by
    unfold trimChars
    rw [List.reverse_reverse]
  rw [hrev, dropWhile_dropWhile, ← hrev, List.reverse_reverse]

/-- Shared normal-form fact: trimming the lower-casing of an
already-normalized character list changes nothing. -/
theorem trim_map_trim (d : List Char) :
    trimChars ((trimChars (d.map lowerChar)).map lowerChar) =
      trimChars (d.map lowerChar) := by
  rw [← trimChars_map_lowerChar, map_lowerChar_map_lowerChar, trimChars_trimChars]

/-- The normalization `lower().strip()` is idempotent. -/
theorem norm_norm (s : String) : norm (norm s) = norm s := by
  unfold norm
  apply congrArg
  exact trim_map_trim s.data

/-- Normalizing the title-cased form of a normalized name recovers the
normalized name. -/
theorem norm_titlecase_norm (s : String) : norm (titlecase (norm s)) = norm s := by
  unfold norm titlecase
  apply congrArg
  show trimChars ((titleAux false (trimChars (s.data.map lowerChar))).map lowerChar) = _
  rw [map_lowerChar_titleAux]
  exact trim_map_trim s.data

/-- Every contribution in the stream comes from some entry and
ingredient. -/
theorem mem_contribs {db : DB} {es : List PlanEntry}
    {c : (String × String) × ℚ × Option ℚ} (h : c ∈ contribs db es) :
    ∃ e i, e ∈ es ∧ i ∈ entryIngredients db e ∧ c = contribOf e i := by
  unfold contribs at h
  rw [List.mem_flatMap] at h
  obtain ⟨e, he, hc⟩ := h
  rw [List.mem_map] at hc
  obtain ⟨i, hi, rfl⟩ := hc
  exact ⟨e, i, he, hi, rfl⟩

/-- Keys after a `bump` are the bumped key or an existing key. -/
theorem mem_keys_bump {al : List ((String × String) × ℚ)} {k x : String × String}
    {q : ℚ} (h : x ∈ (bump al k q).map (·.1)) : x = k ∨ x ∈ al.map (·.1) := by
  induction al with
  | nil =>
    simp [bump] at h
    exact Or.inl h
  | cons a rest ih =>
    obtain ⟨k', v⟩ := a
    unfold bump at h
    by_cases hk : k' = k
    · rw [if_pos hk] at h
      rw [List.map_cons] at h
      rcases List.mem_cons.mp h with h1 | h2
      · exact Or.inl (h1.trans hk)
      · exact Or.inr (List.mem_cons_of_mem _ h2)
    · rw [if_neg hk] at h
      rw [List.map_cons] at h
      rcases List.mem_cons.mp h with h1 | h2
      · exact Or.inr (List.mem_cons.mpr (Or.inl h1))
      · rcases ih h2 with h3 | h4
        · exact Or.inl h3
        · exact Or.inr (List.mem_cons_of_mem _ h4)

/-- Keys of the aggregated demand mapping originate from the initial state
or from some contribution. -/
theorem required_foldl_keys (cs : List ((String × String) × ℚ × Option ℚ)) :
    ∀ (st : AggState) (kv : (String × String) × ℚ),
      kv ∈ (cs.foldl aggStep st).required →
      kv.1 ∈ st.required.map (·.1) ∨ ∃ c ∈ cs, c.1 = kv.1 := by
  induction cs with
  | nil =>
    intro st kv h
    exact Or.inl (List.mem_map_of_mem _ h)
  | cons c cs ih =>
    intro st kv h
    rw [List.foldl_cons] at h
    rcases ih (aggStep st c) kv h with h1 | h2
    · rcases mem_keys_bump h1 with h3 | h4
      · exact Or.inr ⟨c, List.mem_cons_self c cs, h3.symm⟩
      · exact Or.inl h4
    · obtain ⟨c', hc', he⟩ := h2
      exact Or.inr ⟨c', List.mem_cons_of_mem _ hc', he⟩

/-- Every key of the aggregated demand mapping is normalized (a fixed
point of `norm` in both components). -/
theorem required_keys_normalized (db : DB) (es : List PlanEntry) :
    ∀ kv ∈ (aggregate db es).required,
      norm kv.1.1 = kv.1.1 ∧ norm kv.1.2 = kv.1.2 := by
  intro kv h
  rw [aggregate_eq_foldl_contribs] at h
  rcases required_foldl_keys (contribs db es) ⟨[], []⟩ kv h with h1 | h2
  · simp at h1
  · obtain ⟨c, hc, he⟩ := h2
    obtain ⟨e, i, _, _, rfl⟩ := mem_contribs hc
    rw [← he]
    exact ⟨norm_norm _, norm_norm _⟩

/-- Staple-exclusion names are normalized. -/
theorem stapleNames_normalized (db : DB) : ∀ n ∈ stapleNames db, norm n = n := by
  intro n h
  unfold stapleNames at h
  rw [List.mem_map] at h
  obtain ⟨s, _, rfl⟩ := h
  exact norm_norm _

/-- `find?` only depends on the predicate's values on the list. -/
theorem find?_congr {α : Type} {p q : α → Bool} {l : List α}
    (h : ∀ a ∈ l, p a = q a) : l.find? p = l.find? q := by
  induction l with
  | nil => rfl
  | cons a l ih =>
    rw [List.find?_cons, List.find?_cons, h a (List.mem_cons_self a l)]
    cases hqa : q a with
    | true => rfl
    | false => exact ih fun a ha => h a (List.mem_cons_of_mem _ ha)

/-- C2 (amended): aggregation keys and staple-exclusion names are
normalized with the single trim+lower-case normalization (so those
comparisons are norm-to-norm), and the preferred-store lookup — which
lower-cases but does not trim the pantry-side name — agrees with the
uniformly normalized lookup whenever the stored pantry names carry no
surrounding whitespace. -/
theorem claim2_normalization (db : DB) (es : List PlanEntry) :
    (∀ kv ∈ (aggregate db es).required,
        norm kv.1.1 = kv.1.1 ∧ norm kv.1.2 = kv.1.2)
  ∧ (∀ n ∈ stapleNames db, norm n = n)
  ∧ ((∀ p ∈ db.pantry, lowerStr p.name = norm p.name) →
      ∀ n, storeFor db n = storeForSpec db n) := by
  refine ⟨required_keys_normalized db es, stapleNames_normalized db, ?_⟩
  intro h n
  unfold storeFor storeForSpec
  rw [find?_congr fun p hp => by rw [h p hp]]

/-- Witness for C2 (amended) at a snapshot with a trimmed pantry name. -/
theorem claim2_normalization_witness :
    storeFor dbPantryCovers "cb" = storeForSpec dbPantryCovers "cb" :=
  (claim2_normalization dbPantryCovers []).2.2 (by with_unfolding_all decide) "cb"

/-- Counterexample to C2 as stated: with pantry name " milk" (leading
space), the quantity lookup normalizes both sides and finds the row, but
the preferred-store lookup compares the merely lower-cased name and
misses it, so the line lands in "No Store Assigned" instead of the
pantry row's store "sA". -/
theorem claim2_counterexample :
    storeFor dbUntrimmedPantry "milk" = "No Store Assigned"
  ∧ storeForSpec dbUntrimmedPantry "milk" = "sA"
  ∧ pantryOnHand dbUntrimmedPantry "milk" = 0
  ∧ generate dbUntrimmedPantry "d1" "d1" true =
      [("No Store Assigned", [{ name := "Milk", qty := 1, unit := "", cost := none }])] := by
  refine ⟨by with_unfolding_all decide, by with_unfolding_all decide,
    by with_unfolding_all decide, by with_unfolding_all decide⟩

/-- The rational floor of a non-negative rational is non-negative. -/
theorem ratFloor_nonneg {q : ℚ} (h : 0 ≤ q) : 0 ≤ ratFloor q := by
  unfold ratFloor
  exact Int.fdiv_nonneg (Rat.num_nonneg.mpr h) (Int.natCast_nonneg _)

/-- Rounding a non-negative rational to the nearest integer stays
non-negative. -/
theorem roundHalfEven_nonneg {q : ℚ} (h : 0 ≤ q) : 0 ≤ roundHalfEven q := by
  unfold roundHalfEven
  have hf := ratFloor_nonneg h
  dsimp only
  split_ifs <;> omega

/-- `round(q, 2)` of a non-negative rational is non-negative. -/
theorem round2_nonneg {q : ℚ} (h : 0 ≤ q) : 0 ≤ round2 q := by
  unfold round2
  apply div_nonneg _ (by norm_num)
  exact_mod_cast roundHalfEven_nonneg (mul_nonneg h (by norm_num))

/-- `bump` preserves non-negativity of all stored totals. -/
theorem bump_values_nonneg {al : List ((String × String) × ℚ)}
    {k : String × String} {q : ℚ}
    (hal : ∀ kv ∈ al, 0 ≤ kv.2) (hq : 0 ≤ q) :
    ∀ kv ∈ bump al k q, 0 ≤ kv.2 := by
  induction al with
  | nil =>
    intro kv h
    simp [bump] at h
    rw [h]
    exact hq
  | cons a rest ih =>
    obtain ⟨k', v⟩ := a
    intro kv h
    unfold bump at h
    by_cases hk : k' = k
    · rw [if_pos hk] at h
      rcases List.mem_cons.mp h with h1 | h2
      · rw [h1]
        exact add_nonneg (hal (k', v) (List.mem_cons_self _ _)) hq
      · exact hal kv (List.mem_cons_of_mem _ h2)
    · rw [if_neg hk] at h
      rcases List.mem_cons.mp h with h1 | h2
      · rw [h1]
        exact hal (k', v) (List.mem_cons_self _ _)
      · exact ih (fun kv hkv => hal kv (List.mem_cons_of_mem _ hkv)) kv h2

/-- Folding the aggregation over non-negative contributions keeps all
totals non-negative. -/
theorem required_foldl_nonneg (cs : List ((String × String) × ℚ × Option ℚ))
    (hcs : ∀ c ∈ cs, 0 ≤ c.2.1) :
    ∀ st : AggState, (∀ kv ∈ st.required, 0 ≤ kv.2) →
      ∀ kv ∈ (cs.foldl aggStep st).required, 0 ≤ kv.2 := by
  induction cs with
  | nil => intro st hst kv h; exact hst kv h
  | cons c cs ih =>
    intro st hst kv h
    rw [List.foldl_cons] at h
    refine ih (fun c' hc' => hcs c' (List.mem_cons_of_mem _ hc')) (aggStep st c) ?_ kv h
    exact bump_values_nonneg hst (hcs c (List.mem_cons_self _ _))

/-- Contributions are non-negative when ingredient quantities and
servings are. -/
theorem contribs_nonneg (db : DB) (es : List PlanEntry)
    (hq : ∀ p ∈ db.recipeIngredients, 0 ≤ effQty p.2)
    (hs : ∀ e ∈ es, 0 ≤ e.servings) :
    ∀ c ∈ contribs db es, 0 ≤ c.2.1 := by
  intro c hc
  obtain ⟨e, i, he, hi, rfl⟩ := mem_contribs hc
  have hqi : 0 ≤ effQty i := by
    unfold entryIngredients at hi
    cases hrid : e.recipeId with
    | none => rw [hrid] at hi; simp at hi
    | some rid =>
      rw [hrid] at hi
      rw [List.mem_map] at hi
      obtain ⟨pr, hpr, rfl⟩ := hi
      exact hq pr (List.mem_of_mem_filter hpr)
  exact mul_nonneg hqi (hs e he)

/-- C6 (amended): when every ingredient's effective quantity and every
entry's servings are non-negative, every aggregated total is non-negative
— but it can be 0 (for null or zero quantities), not necessarily strictly
positive; consequently the pantry-disabled branch emits each key
unconditionally with quantity `round2 needed`, which is non-negative but
can be 0. -/
theorem claim6_positive_totals (db : DB) (es : List PlanEntry)
    (hq : ∀ p ∈ db.recipeIngredients, 0 ≤ effQty p.2)
    (hs : ∀ e ∈ es, 0 ≤ e.servings) :
    (∀ kv ∈ (aggregate db es).required, 0 ≤ kv.2)
  ∧ (∀ (prices : List ((String × String) × ℚ)) (k : String × String) (q : ℚ)
        (st : String) (l : LineItem),
      (k, q) ∈ (aggregate db es).required →
      processKey db prices false k q = some (st, l) →
      l.qty = round2 q ∧ 0 ≤ l.qty) := by
  have h1 : ∀ kv ∈ (aggregate db es).required, 0 ≤ kv.2 := by
    rw [aggregate_eq_foldl_contribs]
    exact required_foldl_nonneg _ (contribs_nonneg db es hq hs) ⟨[], []⟩ (by simp)
  refine ⟨h1, ?_⟩
  intro prices k q st l hmem hpk
  unfold processKey at hpk
  split at hpk
  · exact absurd hpk (by simp)
  · rw [if_neg Bool.false_ne_true] at hpk
    injection hpk with h2
    have hqty : l.qty = round2 q := by
      have := congrArg (fun r : String × LineItem => r.2.qty) h2
      exact this.symm
    refine ⟨hqty, ?_⟩
    rw [hqty]
    exact round2_nonneg (h1 (k, q) hmem)

/-- Witness for C6 (amended) on the base snapshot: the emitted line's
quantity equals the rounded aggregated total and is non-negative. -/
theorem claim6_positive_totals_witness :
    ({ name := "Cb", qty := 2, unit := "lb", cost := none } : LineItem).qty = round2 2
  ∧ (0 : ℚ) ≤ ({ name := "Cb", qty := 2, unit := "lb", cost := none } : LineItem).qty :=
  (claim6_positive_totals exDb [exEntry] (by with_unfolding_all decide)
      (by with_unfolding_all decide)).2
    [] ("cb", "lb") 2 "No Store Assigned"
    { name := "Cb", qty := 2, unit := "lb", cost := none }
    (by with_unfolding_all decide) (by with_unfolding_all decide)

/-- Counterexample to C6 as stated: an ingredient with a null quantity
yields an aggregated key with total 0 (not strictly positive), and with
pantry-offsetting disabled the unconditional branch emits a line with a
non-positive (zero) buy quantity. -/
theorem claim6_counterexample :
    ((("z", ""), (0 : ℚ)) ∈
        (aggregate dbZeroQty (getMealsInRange dbZeroQty "d1" "d1")).required)
  ∧ (∃ kv ∈ (aggregate dbZeroQty (getMealsInRange dbZeroQty "d1" "d1")).required,
      ¬ 0 < kv.2)
  ∧ generate dbZeroQty "d1" "d1" false =
      [("No Store Assigned", [{ name := "Z", qty := 0, unit := "", cost := none }])] := by
  refine ⟨by with_unfolding_all decide, by with_unfolding_all decide,
    by with_unfolding_all decide⟩

/-! Permutation facts about the bucket operations. -/

/-- Appending a line into its bucket adds exactly that `(store, line)`
pair to the enumerated lines, up to permutation. -/
theorem perm_linesOf_appendLine (bs : Buckets) (st : String) (l : LineItem) :
    List.Perm (linesOf (appendLine bs st l)) ((st, l) :: linesOf bs) := by
  induction bs with
  | nil =>
    unfold appendLine linesOf
    simp
  | cons a rest ih =>
    obtain ⟨s, items⟩ := a
    unfold appendLine
    by_cases hs : s = st
    · subst hs
      rw [if_pos rfl]
      show List.Perm ((items ++ [l]).map (fun l' => (s, l')) ++ linesOf rest)
        ((s, l) :: (items.map (fun l' => (s, l')) ++ linesOf rest))
      rw [List.map_append, List.append_assoc]
      exact List.perm_middle
    · rw [if_neg hs]
      show List.Perm (items.map (fun l' => (s, l')) ++ linesOf (appendLine rest st l))
        ((st, l) :: (items.map (fun l' => (s, l')) ++ linesOf rest))
      exact (List.Perm.append_left _ ih).trans List.perm_middle

/-- Inserting into a sorted list is a permutation of consing. -/
theorem perm_insertLine (a : LineItem) (ys : List LineItem) :
    List.Perm (insertLine a ys) (a :: ys) := by
  induction ys with
  | nil => rfl
  | cons b l ih =>
    unfold insertLine
    split
    · rfl
    · exact (List.Perm.cons b ih).trans (List.Perm.swap a b l)

/-- The per-store stable sort permutes the lines. -/
theorem perm_sortLines (ys : List LineItem) : List.Perm (sortLines ys) ys := by
  induction ys with
  | nil => rfl
  | cons a l ih =>
    unfold sortLines
    exact (perm_insertLine a (sortLines l)).trans (List.Perm.cons a ih)

/-- Sorting the buckets permutes the enumerated lines. -/
theorem perm_linesOf_sortBuckets (bs : Buckets) :
    List.Perm (linesOf (sortBuckets bs)) (linesOf bs) := by
  induction bs with
  | nil => rfl
  | cons a rest ih =>
    obtain ⟨s, items⟩ := a
    show List.Perm ((sortLines items).map (fun l' => (s, l')) ++ linesOf (sortBuckets rest))
      (items.map (fun l' => (s, l')) ++ linesOf rest)
    exact List.Perm.append ((perm_sortLines items).map _) ih

/-- Membership in the lines after an `appendLine`. -/
theorem mem_linesOf_appendLine {bs : Buckets} {st : String} {l : LineItem}
    {x : String × LineItem} :
    x ∈ linesOf (appendLine bs st l) ↔ x ∈ linesOf bs ∨ x = (st, l) := by
  rw [(perm_linesOf_appendLine bs st l).mem_iff, List.mem_cons]
  tauto

/-- Membership in the lines after sorting the buckets. -/
theorem mem_linesOf_sortBuckets {bs : Buckets} {x : String × LineItem} :
    x ∈ linesOf (sortBuckets bs) ↔ x ∈ linesOf bs :=
  (perm_linesOf_sortBuckets bs).mem_iff

/-- A line of a bucket pair is among the enumerated lines. -/
theorem mem_linesOf_of_mem {bs : Buckets} {st : String} {items : List LineItem}
    {l : LineItem} (h1 : (st, items) ∈ bs) (h2 : l ∈ items) :
    (st, l) ∈ linesOf bs := by
  unfold linesOf
  rw [List.mem_flatMap]
  exact ⟨(st, items), h1, List.mem_map_of_mem _ h2⟩

/-- Membership in the lines after one per-key loop iteration. -/
theorem mem_linesOf_buildStep {db : DB} {prices : List ((String × String) × ℚ)}
    {uP : Bool} {bs : Buckets} {kq : (String × String) × ℚ} {x : String × LineItem} :
    x ∈ linesOf (buildStep db prices uP bs kq) ↔
      x ∈ linesOf bs ∨ processKey db prices uP kq.1 kq.2 = some x := by
  unfold buildStep
  cases hpk : processKey db prices uP kq.1 kq.2 with
  | none => simp
  | some r =>
    obtain ⟨st, l⟩ := r
    rw [mem_linesOf_appendLine]
    simp [eq_comm]

/-- Lines after folding the per-key loop come from the initial buckets or
from some processed key. -/
theorem mem_linesOf_foldl_buildStep {db : DB} {prices : List ((String × String) × ℚ)}
    {uP : Bool} (req : List ((String × String) × ℚ)) :
    ∀ (bs : Buckets) (x : String × LineItem),
      x ∈ linesOf (req.foldl (buildStep db prices uP) bs) ↔
        x ∈ linesOf bs ∨ ∃ kq ∈ req, processKey db prices uP kq.1 kq.2 = some x := by
  induction req with
  | nil => intro bs x; simp
  | cons kq req ih =>
    intro bs x
    rw [List.foldl_cons, ih (buildStep db prices uP bs kq) x, mem_linesOf_buildStep]
    constructor
    · rintro ((h | h) | ⟨kq', h1, h2⟩)
      · exact Or.inl h
      · exact Or.inr ⟨kq, List.mem_cons_self _ _, h⟩
      · exact Or.inr ⟨kq', List.mem_cons_of_mem _ h1, h2⟩
    · rintro (h | ⟨kq', h1, h2⟩)
      · exact Or.inl (Or.inl h)
      · rcases List.mem_cons.mp h1 with rfl | h3
        · exact Or.inl (Or.inr h2)
        · exact Or.inr ⟨kq', h3, h2⟩

/-- Lines of the recipe-driven buckets come exactly from processed keys. -/
theorem mem_linesOf_recipeBuckets {db : DB} {prices : List ((String × String) × ℚ)}
    {uP : Bool} {req : List ((String × String) × ℚ)} {x : String × LineItem} :
    x ∈ linesOf (recipeBuckets db prices uP req) ↔
      ∃ kq ∈ req, processKey db prices uP kq.1 kq.2 = some x := by
  unfold recipeBuckets
  rw [mem_linesOf_foldl_buildStep]
  simp [linesOf]

/-- A successful `processKey` yields the staple-exclusion guard and the
shape of the emitted pair. -/
theorem processKey_some {db : DB} {prices : List ((String × String) × ℚ)}
    {uP : Bool} {k : String × String} {q : ℚ} {r : String × LineItem}
    (h : processKey db prices uP k q = some r) :
    k.1 ∉ stapleNames db ∧ ∃ buy : ℚ,
      r = (storeFor db k.1,
        { name := titlecase k.1, qty := round2 buy, unit := k.2,
          cost := (resolveUnitPrice db prices k).map fun p => round2 (p * buy) }) := by
  unfold processKey at h
  split at h
  · exact absurd h (by simp)
  · rename_i hst
    refine ⟨hst, ?_⟩
    cases uP with
    | false =>
      rw [if_neg Bool.false_ne_true] at h
      injection h with h2
      exact ⟨q, h2.symm⟩
    | true =>
      rw [if_pos rfl] at h
      dsimp only at h
      split at h
      · exact absurd h (by simp)
      · injection h with h2
        exact ⟨q - pantryOnHand db k.1, h2.symm⟩

/-- `round(q, 2)` always has exactly two decimal places. -/
theorem twoDecimal_round2 (q : ℚ) : twoDecimal (round2 q) := by
  unfold twoDecimal round2
  rw [div_mul_cancel₀]
  · exact Rat.den_intCast _
  · norm_num

/-- `generate` on a non-trivial range is the staple-injected, sorted
bucket structure. -/
theorem generate_eq_of_nonempty (db : DB) (sd ed : String) (uP : Bool)
    (hE : (getMealsInRange db sd ed).isEmpty = false)
    (hR : (aggregate db (getMealsInRange db sd ed)).required.isEmpty = false) :
    generate db sd ed uP =
      sortBuckets (injectStaples db
        (sortBuckets (recipeBuckets db
          (aggregate db (getMealsInRange db sd ed)).prices uP
          (aggregate db (getMealsInRange db sd ed)).required))
        (db.staples.filter (·.needToBuy))) := by
  unfold generate
  dsimp only
  rw [hE, hR]
  rw [if_neg Bool.false_ne_true, if_neg Bool.false_ne_true]

/-- Membership in the lines after injecting one staple. -/
theorem mem_linesOf_injectStaple {db : DB} {bs : Buckets} {s : Staple}
    {x : String × LineItem} :
    x ∈ linesOf (injectStaple db bs s) ↔
      x ∈ linesOf bs ∨ (anyListed bs (norm s.name) = false
        ∧ x = (stapleBucket s, stapleLine db s)) := by
  unfold injectStaple
  by_cases h : anyListed bs (norm s.name) = true
  · rw [if_pos h]
    simp [h]
  · rw [if_neg h, mem_linesOf_appendLine]
    rw [Bool.not_eq_true] at h
    simp [h]

/-- Lines after the staple-injection pass come from the input buckets or
from some injected staple. -/
theorem mem_linesOf_injectStaples {db : DB} (ss : List Staple) :
    ∀ (bs : Buckets) (x : String × LineItem),
      x ∈ linesOf (injectStaples db bs ss) →
        x ∈ linesOf bs ∨ ∃ s ∈ ss, x = (stapleBucket s, stapleLine db s) := by
  induction ss with
  | nil => intro bs x h; exact Or.inl h
  | cons s ss ih =>
    intro bs x h
    rw [injectStaples, List.foldl_cons] at h
    rcases ih (injectStaple db bs s) x h with h1 | ⟨s', hs', he⟩
    · rcases mem_linesOf_injectStaple.mp h1 with h2 | ⟨-, he⟩
      · exact Or.inl h2
      · exact Or.inr ⟨s, List.mem_cons_self _ _, he⟩
    · exact Or.inr ⟨s', List.mem_cons_of_mem _ hs', he⟩

/-- The staple-injection pass preserves existing lines. -/
theorem mem_linesOf_injectStaples_of_mem {db : DB} (ss : List Staple) :
    ∀ (bs : Buckets) (x : String × LineItem),
      x ∈ linesOf bs → x ∈ linesOf (injectStaples db bs ss) := by
  induction ss with
  | nil => intro bs x h; exact h
  | cons s ss ih =>
    intro bs x h
    rw [injectStaples, List.foldl_cons]
    exact ih (injectStaple db bs s) x (mem_linesOf_injectStaple.mpr (Or.inl h))

/-- Every line of a `generate` result is either a processed
recipe-driven key or an injected needed staple. -/
theorem generate_line_origin (db : DB) (sd ed : String) (uP : Bool)
    {x : String × LineItem} (hx : x ∈ linesOf (generate db sd ed uP)) :
    (∃ kq ∈ (aggregate db (getMealsInRange db sd ed)).required,
      processKey db (aggregate db (getMealsInRange db sd ed)).prices uP kq.1 kq.2
        = some x)
  ∨ (∃ s ∈ db.staples, s.needToBuy = true
      ∧ x = (stapleBucket s, stapleLine db s)) := by
  by_cases hE : (getMealsInRange db sd ed).isEmpty = true
  · unfold generate at hx
    dsimp only at hx
    rw [if_pos hE] at hx
    simp [linesOf] at hx
  · by_cases hR : (aggregate db (getMealsInRange db sd ed)).required.isEmpty = true
    · unfold generate at hx
      dsimp only at hx
      rw [if_neg hE, if_pos hR] at hx
      simp [linesOf] at hx
    · rw [generate_eq_of_nonempty db sd ed uP (Bool.not_eq_true _ ▸ hE)
        (Bool.not_eq_true _ ▸ hR)] at hx
      rw [mem_linesOf_sortBuckets] at hx
      rcases mem_linesOf_injectStaples _ _ _ hx with h1 | ⟨s, hs, he⟩
      · rw [mem_linesOf_sortBuckets, mem_linesOf_recipeBuckets] at h1
        exact Or.inl h1
      · rcases List.mem_filter.mp hs with ⟨hs1, hs2⟩
        exact Or.inr ⟨s, hs1, hs2, he⟩

/-- C4 (amended): every line emitted by `generate` is either a
recipe-driven line — whose quantity and cost (when present) are rounded to
exactly two decimal places, once, at emission — or an injected
needed-staple line, which has quantity 0 and empty unit but carries the
known unit price verbatim, unrounded. -/
theorem claim4_rounding (db : DB) (sd ed : String) (uP : Bool)
    (st : String) (items : List LineItem) (l : LineItem)
    (h1 : (st, items) ∈ generate db sd ed uP) (h2 : l ∈ items) :
    (twoDecimal l.qty ∧ ∀ c : ℚ, l.cost = some c → twoDecimal c)
  ∨ (l.qty = 0 ∧ l.unit = "" ∧ ∃ s ∈ db.staples, s.needToBuy = true
      ∧ l.name = s.name ∧ l.cost = knownLookup db (norm s.name)) := by
  have hx := mem_linesOf_of_mem h1 h2
  rcases generate_line_origin db sd ed uP hx with ⟨kq, _, hpk⟩ | ⟨s, hs, hneed, hxe⟩
  · left
    obtain ⟨-, buy, hr⟩ := processKey_some hpk
    rw [Prod.mk.injEq] at hr
    obtain ⟨-, hl⟩ := hr
    rw [hl]
    refine ⟨twoDecimal_round2 buy, ?_⟩
    intro c hc
    dsimp only at hc
    rcases Option.map_eq_some'.mp hc with ⟨p, -, rfl⟩
    exact twoDecimal_round2 _
  · right
    rw [Prod.mk.injEq] at hxe
    obtain ⟨-, hl⟩ := hxe
    rw [hl]
    exact ⟨rfl, rfl, s, hs, hneed, rfl, rfl⟩

/-- Witness for C4 (amended), applied to the staple line of the
three-decimal-price snapshot. -/
theorem claim4_rounding_witness :
    (twoDecimal ({ name := "s", qty := 0, unit := "", cost := some (1/8) } : LineItem).qty
      ∧ ∀ c : ℚ,
        ({ name := "s", qty := 0, unit := "", cost := some (1/8) } : LineItem).cost = some c
        → twoDecimal c)
  ∨ (({ name := "s", qty := 0, unit := "", cost := some (1/8) } : LineItem).qty = 0
      ∧ ({ name := "s", qty := 0, unit := "", cost := some (1/8) } : LineItem).unit = ""
      ∧ ∃ s ∈ dbStapleCents.staples, s.needToBuy = true
        ∧ ({ name := "s", qty := 0, unit := "", cost := some (1/8) } : LineItem).name = s.name
        ∧ ({ name := "s", qty := 0, unit := "", cost := some (1/8) } : LineItem).cost
            = knownLookup dbStapleCents (norm s.name)) :=
  claim4_rounding dbStapleCents "d1" "d1" true "Staples"
    [{ name := "s", qty := 0, unit := "", cost := some (1/8) }]
    { name := "s", qty := 0, unit := "", cost := some (1/8) }
    (by with_unfolding_all decide) (by with_unfolding_all decide)

/-- Counterexample to C4 as stated: the needed staple "s" with known
price 0.125 is emitted with that cost verbatim, which does not have
exactly two decimal places. -/
theorem claim4_rounding_counterexample :
    generate dbStapleCents "d1" "d1" true =
      [("No Store Assigned", [{ name := "Cb", qty := 2, unit := "lb", cost := none }]),
       ("Staples", [{ name := "s", qty := 0, unit := "", cost := some (1/8) }])]
  ∧ ¬ twoDecimal (1/8) := by
  refine ⟨by with_unfolding_all decide, by with_unfolding_all decide⟩

/-- C5: a key whose normalized name matches an always-on-hand staple is
dropped by the per-key loop — it contributes nothing to the buckets — and
consequently no line of the final result with non-zero quantity carries a
normalized name matching such a staple. -/
theorem claim5_staple_exclusion (db : DB) (sd ed : String) (uP : Bool) :
    (∀ (k : String × String) (q : ℚ),
      (k, q) ∈ (aggregate db (getMealsInRange db sd ed)).required →
      k.1 ∈ stapleNames db →
      processKey db (aggregate db (getMealsInRange db sd ed)).prices uP k q = none
      ∧ ∀ bs, buildStep db (aggregate db (getMealsInRange db sd ed)).prices uP bs (k, q) = bs)
  ∧ (∀ (st : String) (items : List LineItem) (l : LineItem),
      (st, items) ∈ generate db sd ed uP → l ∈ items →
      l.qty ≠ 0 → norm l.name ∉ stapleNames db) := by
  constructor
  · intro k q _ hst
    have hnone : processKey db (aggregate db (getMealsInRange db sd ed)).prices uP k q
        = none := by
      unfold processKey
      rw [if_pos hst]
    refine ⟨hnone, fun bs => ?_⟩
    unfold buildStep
    rw [hnone]
  · intro st items l h1 h2 hqty
    have hx := mem_linesOf_of_mem h1 h2
    rcases generate_line_origin db sd ed uP hx with ⟨kq, hkq, hpk⟩ | ⟨s, hs, hneed, hxe⟩
    · obtain ⟨hst, buy, hr⟩ := processKey_some hpk
      rw [Prod.mk.injEq] at hr
      obtain ⟨-, hl⟩ := hr
      have hnorm : norm l.name = kq.1.1 := by
        rw [hl]
        show norm (titlecase kq.1.1) = kq.1.1
        have hk := (required_keys_normalized db (getMealsInRange db sd ed) kq hkq).1
        conv_lhs => rw [← hk]
        rw [norm_titlecase_norm, hk]
      rw [hnorm]
      exact hst
    · exfalso
      apply hqty
      rw [Prod.mk.injEq] at hxe
      rw [hxe.2]
      rfl

/-- Witness for C5 at a snapshot whose demanded key "cb" is an
always-on-hand staple. -/
theorem claim5_staple_exclusion_witness :
    processKey dbStapleOnHand
      (aggregate dbStapleOnHand (getMealsInRange dbStapleOnHand "d1" "d1")).prices
      true ("cb", "lb") 2 = none
  ∧ buildStep dbStapleOnHand
      (aggregate dbStapleOnHand (getMealsInRange dbStapleOnHand "d1" "d1")).prices
      true [] (("cb", "lb"), 2) = [] := by
  have h := (claim5_staple_exclusion dbStapleOnHand "d1" "d1" true).1 ("cb", "lb") 2
    (by with_unfolding_all decide) (by with_unfolding_all decide)
  exact ⟨h.1, h.2 []⟩

/-- `any` is invariant under permutation. -/
theorem any_perm {α : Type} {l₁ l₂ : List α} (h : List.Perm l₁ l₂) (p : α → Bool) :
    l₁.any p = l₂.any p := by
  cases hb : l₂.any p with
  | true =>
    rw [List.any_eq_true] at hb ⊢
    obtain ⟨a, ha, hp⟩ := hb
    exact ⟨a, h.mem_iff.mpr ha, hp⟩
  | false =>
    rw [List.any_eq_false] at hb ⊢
    intro a ha
    exact hb a (h.mem_iff.mp ha)

/-- `any` over a mapped list (heterogeneous version). -/
theorem any_map_general {α β : Type} (f : α → β) (l : List α) (p : β → Bool) :
    (l.map f).any p = l.any fun a => p (f a) := by
  induction l with
  | nil => rfl
  | cons a l ih =>
    rw [List.map_cons, List.any_cons, List.any_cons, ih]

/-- `already_listed` reads the normalized names of the enumerated lines. -/
theorem anyListed_eq_any (bs : Buckets) (n : String) :
    anyListed bs n = (linesOf bs).any fun y => norm y.2.name == n := by
  induction bs with
  | nil => rfl
  | cons a rest ih =>
    obtain ⟨s, items⟩ := a
    unfold anyListed
    rw [List.any_cons]
    unfold anyListed at ih
    rw [ih]
    unfold linesOf
    rw [List.flatMap_cons]
    dsimp only
    rw [List.any_append, any_map_general]

/-- `already_listed` after appending a line. -/
theorem anyListed_appendLine (bs : Buckets) (st : String) (l : LineItem) (n : String) :
    anyListed (appendLine bs st l) n = (anyListed bs n || (norm l.name == n)) := by
  rw [anyListed_eq_any, anyListed_eq_any,
    any_perm (perm_linesOf_appendLine bs st l), List.any_cons]
  exact Bool.or_comm _ _

/-- Line count by normalized name after appending a line. -/
theorem countNorm_appendLine (bs : Buckets) (st : String) (l : LineItem) (n : String) :
    countNorm (appendLine bs st l) n =
      countNorm bs n + (if norm l.name == n then 1 else 0) := by
  unfold countNorm
  rw [(perm_linesOf_appendLine bs st l).countP_eq, List.countP_cons]

/-- Line count by normalized name is stable under bucket sorting. -/
theorem countNorm_sortBuckets (bs : Buckets) (n : String) :
    countNorm (sortBuckets bs) n = countNorm bs n := by
  unfold countNorm
  rw [(perm_linesOf_sortBuckets bs).countP_eq]

/-- Injecting staples whose normalized names differ from `n` never makes
`n` listed. -/
theorem anyListed_injectStaples_of_ne (db : DB) (pre : List Staple) :
    ∀ (bs : Buckets) (n : String), (∀ t ∈ pre, norm t.name ≠ n) →
      anyListed bs n = false → anyListed (injectStaples db bs pre) n = false := by
  induction pre with
  | nil => intro bs n _ h; exact h
  | cons t pre ih =>
    intro bs n hpre h
    rw [injectStaples, List.foldl_cons]
    refine ih _ n (fun t' ht' => hpre t' (List.mem_cons_of_mem _ ht')) ?_
    unfold injectStaple
    split
    · exact h
    · rw [anyListed_appendLine, h,
        show (norm (stapleLine db t).name == n) = false from
          beq_eq_false_iff_ne.mpr (hpre t (List.mem_cons_self _ _))]
      rfl

/-- Once a normalized name is listed, the injection pass never adds
another line with that normalized name, and it stays listed. -/
theorem countNorm_injectStaples_of_listed {db : DB} (ss : List Staple) :
    ∀ (bs : Buckets) (n : String), anyListed bs n = true →
      countNorm (injectStaples db bs ss) n = countNorm bs n
      ∧ anyListed (injectStaples db bs ss) n = true := by
  induction ss with
  | nil => intro bs n h; exact ⟨rfl, h⟩
  | cons t ss ih =>
    intro bs n h
    rw [injectStaples, List.foldl_cons]
    by_cases ht : anyListed bs (norm t.name) = true
    · have hskip : injectStaple db bs t = bs := by
        unfold injectStaple
        rw [if_pos ht]
      rw [hskip]
      exact ih bs n h
    · have hne : norm t.name ≠ n := fun he => ht (he ▸ h)
      have hstep : injectStaple db bs t =
          appendLine bs (stapleBucket t) (stapleLine db t) := by
        unfold injectStaple
        rw [if_neg ht]
      rw [hstep]
      have hany : anyListed (appendLine bs (stapleBucket t) (stapleLine db t)) n
          = true := by
        rw [anyListed_appendLine, h]
        rfl
      obtain ⟨h1, h2⟩ := ih (appendLine bs (stapleBucket t) (stapleLine db t)) n hany
      show countNorm (injectStaples db
            (appendLine bs (stapleBucket t) (stapleLine db t)) ss) n = countNorm bs n
        ∧ anyListed (injectStaples db
            (appendLine bs (stapleBucket t) (stapleLine db t)) ss) n = true
      refine ⟨?_, h2⟩
      rw [h1, countNorm_appendLine,
        show (norm (stapleLine db t).name == n) = false from
          beq_eq_false_iff_ne.mpr hne]
      rfl

/-- C9: for a needed staple `s` — the first needed staple with its
normalized name — whose normalized name matches no line of the
pre-injection buckets, `generate` appends the line
`(s.name verbatim, 0, "", known-price-or-absent)` into the bucket named
after the staple's preferred store (or the sentinel "Staples"); and when
the name is already listed, no line with that normalized name is ever
added. -/
theorem claim9_staple_injection (db : DB) (sd ed : String) (uP : Bool) (s : Staple)
    (pre post : List Staple)
    (hE : (getMealsInRange db sd ed).isEmpty = false)
    (hR : (aggregate db (getMealsInRange db sd ed)).required.isEmpty = false)
    (hsplit : db.staples.filter (·.needToBuy) = pre ++ s :: post)
    (hpre : ∀ t ∈ pre, norm t.name ≠ norm s.name) :
    (anyListed (sortBuckets (recipeBuckets db
        (aggregate db (getMealsInRange db sd ed)).prices uP
        (aggregate db (getMealsInRange db sd ed)).required)) (norm s.name) = false →
      lineInBucket (generate db sd ed uP) (stapleBucket s) (stapleLine db s))
  ∧ (anyListed (sortBuckets (recipeBuckets db
        (aggregate db (getMealsInRange db sd ed)).prices uP
        (aggregate db (getMealsInRange db sd ed)).required)) (norm s.name) = true →
      countNorm (generate db sd ed uP) (norm s.name) =
        countNorm (sortBuckets (recipeBuckets db
          (aggregate db (getMealsInRange db sd ed)).prices uP
          (aggregate db (getMealsInRange db sd ed)).required)) (norm s.name)) := by
  rw [generate_eq_of_nonempty db sd ed uP hE hR, hsplit]
  constructor
  · intro hnot
    unfold lineInBucket
    rw [mem_linesOf_sortBuckets]
    rw [injectStaples, List.foldl_append, List.foldl_cons]
    have h1 := anyListed_injectStaples_of_ne db pre
      (sortBuckets (recipeBuckets db
        (aggregate db (getMealsInRange db sd ed)).prices uP
        (aggregate db (getMealsInRange db sd ed)).required))
      (norm s.name) hpre hnot
    have h2 : injectStaple db (injectStaples db
        (sortBuckets (recipeBuckets db
          (aggregate db (getMealsInRange db sd ed)).prices uP
          (aggregate db (getMealsInRange db sd ed)).required)) pre) s =
        appendLine (injectStaples db
          (sortBuckets (recipeBuckets db
            (aggregate db (getMealsInRange db sd ed)).prices uP
            (aggregate db (getMealsInRange db sd ed)).required)) pre)
          (stapleBucket s) (stapleLine db s) := by
      unfold injectStaple
      rw [if_neg (by rw [h1]; exact Bool.false_ne_true)]
    refine mem_linesOf_injectStaples_of_mem post _ _ ?_
    rw [show (List.foldl (injectStaple db) (sortBuckets (recipeBuckets db
        (aggregate db (getMealsInRange db sd ed)).prices uP
        (aggregate db (getMealsInRange db sd ed)).required)) pre) =
      injectStaples db (sortBuckets (recipeBuckets db
        (aggregate db (getMealsInRange db sd ed)).prices uP
        (aggregate db (getMealsInRange db sd ed)).required)) pre from rfl, h2]
    exact mem_linesOf_appendLine.mpr (Or.inr rfl)
  · intro hyes
    rw [countNorm_sortBuckets]
    exact (countNorm_injectStaples_of_listed (pre ++ s :: post) _ _ hyes).1

/-- Witness for C9: the needed staple "pt" with preferred store "sB" is
injected into the "sB" bucket with quantity 0, empty unit and its known
price. -/
theorem claim9_staple_injection_witness :
    lineInBucket (generate dbStapleInject "d1" "d1" true)
      (stapleBucket { name := "pt", needToBuy := true, preferredStore := some "sB" })
      (stapleLine dbStapleInject
        { name := "pt", needToBuy := true, preferredStore := some "sB" }) :=
  (claim9_staple_injection dbStapleInject "d1" "d1" true
      { name := "pt", needToBuy := true, preferredStore := some "sB" } [] []
      (by with_unfolding_all decide) (by with_unfolding_all decide)
      (by with_unfolding_all decide) (by with_unfolding_all decide)).1
    (by with_unfolding_all decide)

end MealPlanner
